import Mathlib

/-!
Shallow embedding of `inficon_spot.cpp` (Arduino driver for INFICON Spot
pressure sensors).

Modelling conventions:
* Bytes and machine words are `Nat`; C bit operations `|`, `&`, `>>`, `<<`
  are `|||`, `&&&`, `>>>`, `<<<` on `Nat`, with explicit `% 2^w` where the
  C type would truncate.
* The SPI bus plus the device on the other side is a full-duplex oracle
  `Dev : List Nat → List Nat`: given the transmitted buffer it returns the
  buffer of simultaneously received bytes (C `SPI.transfer(buf, n)`
  overwrites `buf` in place with the received bytes).
* Side effects on the bus are recorded as an event trace: one event for
  `SPI.beginTransaction`, `SPI.endTransaction`, each `digitalWrite` on the
  chip-select pin, and each `SPI.transfer`.
* `float` arithmetic is modelled over `ℚ`.  Every concrete value the
  claims mention (`/ 2097152.0f`, `* 1.0f`, `* 25`, inputs that are
  multiples of powers of two) is exactly representable and the operations
  on them are exact in IEEE-754 binary32, so the rational model agrees
  with the C `float` computation at every input used in a theorem below.
-/

/-- Events visible on the SPI bus and the chip-select line.
`beginT`/`endT` are `SPI.beginTransaction`/`SPI.endTransaction`
(the bus-acquisition scope), `cs b` is `digitalWrite(_ss_pin, b)`
with `false` = LOW (asserted) and `true` = HIGH (deasserted), and
`xfer buf` is a full-duplex `SPI.transfer` of the buffer `buf`. -/
inductive Ev where
  | beginT : Ev
  | endT : Ev
  | cs : Bool → Ev
  | xfer : List Nat → Ev
deriving DecidableEq

/-- Full-duplex device oracle: the bytes received while a given buffer is
transmitted. -/
abbrev Dev := List Nat → List Nat

/-- Handle state of `InficonSpot` (fields `_ss_pin`, `_rdy_pin`,
`_spi_freq`, `_fullscale` of the C++ class). -/
structure InficonSpot where
  ss_pin : Nat
  rdy_pin : Nat
  spi_freq : Nat
  fullscale : ℚ

/-- Default constructor `InficonSpot::InficonSpot()` (lines 24-30). -/
def InficonSpot.init : InficonSpot :=
  { ss_pin := 10, rdy_pin := 7, spi_freq := 4000000, fullscale := 0 }

/-- `InficonSpot::setFullscale` (lines 283-286). -/
def InficonSpot.setFullscale (s : InficonSpot) (fullscale : ℚ) : InficonSpot :=
  { s with fullscale := fullscale }

/-- The C expression `*((int32_t *) &result)` where `result : uint32_t`:
reinterpret the 32-bit container as a two's-complement `int32_t`.  The
sign is taken from bit 31 of the container. -/
def reinterpretS32 (u : Nat) : Int :=
  if u % 2 ^ 32 < 2 ^ 31 then ((u % 2 ^ 32 : Nat) : Int)
  else ((u % 2 ^ 32 : Nat) : Int) - 2 ^ 32

/-- `InficonSpot::convertPressure(uint32_t result, float fullscale)`
(lines 299-303): `rawPressure / 2097152.0f * fullscale` where
`rawPressure = *((int32_t *) &result)`. -/
def convertPressure (result : Nat) (fullscale : ℚ) : ℚ :=
  (reinterpretS32 result : ℚ) / 2097152 * fullscale

/-- One-argument overload `InficonSpot::convertPressure(uint32_t result)`
(lines 293-297): same formula with the handle's stored `_fullscale`. -/
def InficonSpot.convertPressure (s : InficonSpot) (result : Nat) : ℚ :=
  (reinterpretS32 result : ℚ) / 2097152 * s.fullscale

/-- `InficonSpot::convertTemperature(uint32_t result)` (lines 308-311):
`rawTemperature / 2097152.0f * 25`. -/
def convertTemperature (result : Nat) : ℚ :=
  (reinterpretS32 result : ℚ) / 2097152 * 25

/-- Modelled from the spec: interpret the low 24 bits as a 24-bit
two's-complement signed integer, sign-extending from bit 23
(spec section 4.6).  This is what the spec says the converters do; it is
compared against the source-derived `reinterpretS32` above. -/
def signExtend24 (u : Nat) : Int :=
  if u % 2 ^ 24 < 2 ^ 23 then ((u % 2 ^ 24 : Nat) : Int)
  else ((u % 2 ^ 24 : Nat) : Int) - 2 ^ 24

/-- Modelled from the spec: `convertPressure` as specified, with 24-bit
sign extension. -/
def convertPressureSpec (result : Nat) (fullscale : ℚ) : ℚ :=
  (signExtend24 result : ℚ) / 2097152 * fullscale

/-- Modelled from the spec: `convertTemperature` as specified, with 24-bit
sign extension. -/
def convertTemperatureSpec (result : Nat) : ℚ :=
  (signExtend24 result : ℚ) / 2097152 * 25

/-- C1: the code does NOT sign-extend from bit 23.  `*((int32_t*)&result)`
reinterprets the full 32-bit container, so the 24-bit pattern 0xE00000
(which the spec reads as -2097152) stays the positive value 14680064, and
`convertPressure(0xE00000, 1.0)` returns 7.0, not the -1.0 the claim
states.  The spec-side definition indeed gives -1.0 there, and the
`raw = 0` part of the claim does hold of the code. -/
theorem convertPressure_no_sign_extension_bug :
    convertPressure 0xE00000 1 = 7 ∧
    (InficonSpot.init.setFullscale 1).convertPressure 0xE00000 = 7 ∧
    convertPressureSpec 0xE00000 1 = -1 ∧
    signExtend24 0xE00000 = -2097152 ∧
    (∀ fs : ℚ, convertPressure 0 fs = 0) := by
  refine ⟨?_, ?_, ?_, ?_, ?_⟩
  · norm_num [convertPressure, reinterpretS32]
  · norm_num [InficonSpot.convertPressure, InficonSpot.setFullscale,
      InficonSpot.init, reinterpretS32]
  · norm_num [convertPressureSpec, signExtend24]
  · norm_num [signExtend24]
  · intro fs
    norm_num [convertPressure, reinterpretS32]

/-- C7: `convertTemperature` has the same missing sign extension as
`convertPressure`: on the negative 24-bit pattern 0xE00000 the code
returns 175.0 where the claimed 24-bit signed interpretation gives -25.0.
The claim's concrete positive instance does hold: raw 0x200000 gives
exactly 25.0. -/
theorem convertTemperature_no_sign_extension_bug :
    convertTemperature 0x200000 = 25 ∧
    convertTemperature 0xE00000 = 175 ∧
    convertTemperatureSpec 0xE00000 = -25 := by
  refine ⟨?_, ?_, ?_⟩
  · norm_num [convertTemperature, reinterpretS32]
  · norm_num [convertTemperature, reinterpretS32]
  · norm_num [convertTemperatureSpec, signExtend24]

/-- Sent buffer built by `InficonSpot::readRegister` (lines 82-93):
`buf = {reg | 0x40, 0, 0, 0}`. -/
def readRegisterTx (reg : Nat) : List Nat :=
  [reg ||| 0x40, 0, 0, 0]

/-- `InficonSpot::readRegister(byte reg)` (lines 82-101): transfer the
4-byte buffer, then assemble bytes 1-3 of the received buffer as
`buf[1] << 16 | buf[2] << 8 | buf[3]`. -/
def readRegister (dev : Dev) (reg : Nat) : Nat :=
  let recv := dev (readRegisterTx reg)
  ((recv.getD 1 0) <<< 16) ||| ((recv.getD 2 0) <<< 8) ||| (recv.getD 3 0)

/-- Sent buffer built by `InficonSpot::writeRegister` (lines 106-120):
`{reg | 0xc0, (data>>16)&0xff, (data>>8)&0xff, (data>>0)&0xff}`. -/
def writeRegisterTx (reg data : Nat) : List Nat :=
  [reg ||| 0xc0, (data >>> 16) &&& 0xff, (data >>> 8) &&& 0xff,
    (data >>> 0) &&& 0xff]

/-- Three-byte frame sent per address by `InficonSpot::readMemory`
(lines 156-158): `{0x10 | ((a>>8)&0x0f), a&0xff, 0}`. -/
def mainReadFrame (a : Nat) : List Nat :=
  [0x10 ||| ((a >>> 8) &&& 0x0f), a &&& 0xff, 0]

/-- Three-byte frame sent per address by `InficonSpot::writeMemory`
(lines 180-182): `{0x90 | ((a>>8)&0x0f), a&0xff, d}`. -/
def mainWriteFrame (a d : Nat) : List Nat :=
  [0x90 ||| ((a >>> 8) &&& 0x0f), a &&& 0xff, d]

/-- Three-byte frame sent per address by `InficonSpot::readOTP`
(lines 132-134): `{0x20 | ((a>>8)&0x1f), a&0xff, 0}`. -/
def otpReadFrame (a : Nat) : List Nat :=
  [0x20 ||| ((a >>> 8) &&& 0x1f), a &&& 0xff, 0]

/-- Loop body of `InficonSpot::readMemory` (lines 155-165), iterated `n`
more times starting at loop index `i`: each pass frames one address,
pulses chip select around one 3-byte transfer, and stores byte 2 of the
received buffer into `data[i]`. -/
def readMemoryIter (dev : Dev) (address : Nat) (data : List Nat) (i n : Nat) :
    List Ev × List Nat :=
  match n with
  | 0 => ([], data)
  | Nat.succ m =>
    let sent := mainReadFrame (address + i)
    let recv := dev sent
    let rest := readMemoryIter dev address (data.set i (recv.getD 2 0)) (i + 1) m
    ([Ev.cs false, Ev.xfer sent, Ev.cs true] ++ rest.1, rest.2)

/-- `InficonSpot::readMemory(uint16_t address, uint8_t *data, int length)`
(lines 149-168).  `length` is a C `int`; the `for (int i = 0; i < length;
i++)` loop runs `max length 0` times, i.e. `length.toNat` times.  Returns
the event trace and the final contents of the caller's buffer. -/
def readMemory (dev : Dev) (address : Nat) (data : List Nat) (length : Int) :
    List Ev × List Nat :=
  let r := readMemoryIter dev address data 0 length.toNat
  (Ev.beginT :: r.1 ++ [Ev.endT], r.2)

/-- Loop body of `InficonSpot::readOTP` (lines 131-141): identical to the
`readMemory` loop except for the frame. -/
def readOTPIter (dev : Dev) (address : Nat) (data : List Nat) (i n : Nat) :
    List Ev × List Nat :=
  match n with
  | 0 => ([], data)
  | Nat.succ m =>
    let sent := otpReadFrame (address + i)
    let recv := dev sent
    let rest := readOTPIter dev address (data.set i (recv.getD 2 0)) (i + 1) m
    ([Ev.cs false, Ev.xfer sent, Ev.cs true] ++ rest.1, rest.2)

/-- `InficonSpot::readOTP(uint16_t address, uint8_t *data, int length)`
(lines 125-144). -/
def readOTP (dev : Dev) (address : Nat) (data : List Nat) (length : Int) :
    List Ev × List Nat :=
  let r := readOTPIter dev address data 0 length.toNat
  (Ev.beginT :: r.1 ++ [Ev.endT], r.2)

/-- Loop body of `InficonSpot::writeMemory` (lines 179-187): frames
`data[i]` into byte 2; the received bytes are discarded and the caller's
buffer is `const`, so only the trace is produced. -/
def writeMemoryIter (address : Nat) (data : List Nat) (i n : Nat) : List Ev :=
  match n with
  | 0 => []
  | Nat.succ m =>
    let sent := mainWriteFrame (address + i) (data.getD i 0)
    [Ev.cs false, Ev.xfer sent, Ev.cs true] ++ writeMemoryIter address data (i + 1) m

/-- `InficonSpot::writeMemory(uint16_t address, const uint8_t data[], int
length)` (lines 173-190). -/
def writeMemory (address : Nat) (data : List Nat) (length : Int) : List Ev :=
  Ev.beginT :: writeMemoryIter address data 0 length.toNat ++ [Ev.endT]

/-- Data byte delivered by the device for a main-memory read of one
address: byte 2 of the full-duplex response to `mainReadFrame a`. -/
def mainMemByte (dev : Dev) (a : Nat) : Nat :=
  (dev (mainReadFrame a)).getD 2 0

/-- Data byte delivered by the device for an OTP read of one address. -/
def otpByte (dev : Dev) (a : Nat) : Nat :=
  (dev (otpReadFrame a)).getD 2 0

/-- `InficonSpot::readLabel(uint16_t address, byte length)` (lines
195-219).  `init` is the (uninitialised) content of the 32-byte stack
buffer `char s[32]`.  The length is clamped to 32, `length` bytes are
read via `readMemory`, the first `length` bytes are scanned for a zero
byte, `s[0]` is zeroed if none was found, and `String(s)` takes the
bytes up to the first zero byte. -/
def readLabel (dev : Dev) (address : Nat) (length : Nat) (init : List Nat) :
    List Nat :=
  let len := if 32 < length then 32 else length
  let s := (readMemory dev address init (Int.ofNat len)).2
  let isZeroTerminated := (List.range len).any fun i => s.getD i 1 == 0
  let s2 := if isZeroTerminated then s else s.set 0 0
  s2.takeWhile fun b => b != 0

/-- `InficonSpot::readSramCrc()` (lines 258-267): read 4 bytes of main
memory at `ADDR_SRAMCRC` and assemble them little-endian.  The value of
`ADDR_SRAMCRC` lives in the header `inficon_spot.h`, which is not part of
the sources here, so the fixed address is a parameter. -/
def readSramCrc (dev : Dev) (addrSramCrc : Nat) : Nat :=
  let crcbuf := (readMemory dev addrSramCrc [0, 0, 0, 0] 4).2
  ((crcbuf.getD 3 0) <<< 24) ||| ((crcbuf.getD 2 0) <<< 16) |||
    ((crcbuf.getD 1 0) <<< 8) ||| (crcbuf.getD 0 0)

/-- `InficonSpot::readOtpCrc()` (lines 269-278): same assembly from 4 OTP
bytes at `ADDR_OTPCRC` (parameter, see `readSramCrc`). -/
def readOtpCrc (dev : Dev) (addrOtpCrc : Nat) : Nat :=
  let crcbuf := (readOTP dev addrOtpCrc [0, 0, 0, 0] 4).2
  ((crcbuf.getD 3 0) <<< 24) ||| ((crcbuf.getD 2 0) <<< 16) |||
    ((crcbuf.getD 1 0) <<< 8) ||| (crcbuf.getD 0 0)

/-- Masking with 0xff is reduction mod 256. -/
lemma and_255_eq_mod (x : Nat) : x &&& 255 = x % 256 := by
  have h := Nat.and_pow_two_sub_one_eq_mod x 8
  norm_num at h
  exact h

/-- Masking with 0x0f is reduction mod 16. -/
lemma and_15_eq_mod (x : Nat) : x &&& 15 = x % 16 := by
  have h := Nat.and_pow_two_sub_one_eq_mod x 4
  norm_num at h
  exact h

/-- Masking with 0x1f is reduction mod 32. -/
lemma and_31_eq_mod (x : Nat) : x &&& 31 = x % 32 := by
  have h := Nat.and_pow_two_sub_one_eq_mod x 5
  norm_num at h
  exact h

/-- Bitwise or of disjoint operands is addition: if `a` has no bits below
`2^k` and `b < 2^k` then `a ||| b = a + b`. -/
lemma lor_eq_add_of_lt {a b k : Nat} (hb : b < 2 ^ k) (ha : a % 2 ^ k = 0) :
    a ||| b = a + b := by
  have hdvd : 2 ^ k ∣ a := Nat.dvd_iff_mod_eq_zero.mpr ha
  obtain ⟨c, hc⟩ := hdvd
  subst hc
  exact (Nat.mul_add_lt_is_or hb c).symm

/-- Big-endian assembly of three bytes, as done by `readRegister`, equals
the positional sum. -/
lemma be3_assembly {b1 b2 b3 : Nat} (h2 : b2 < 256) (h3 : b3 < 256) :
    (b1 <<< 16) ||| (b2 <<< 8) ||| b3 = b1 * 65536 + b2 * 256 + b3 := by
  rw [Nat.shiftLeft_eq, Nat.shiftLeft_eq]
  have hi : b1 * 2 ^ 16 ||| b2 * 2 ^ 8 = b1 * 2 ^ 16 + b2 * 2 ^ 8 :=
    lor_eq_add_of_lt (k := 16) (by omega) (by omega)
  rw [hi, lor_eq_add_of_lt (k := 8) (by omega) (by omega)]
  norm_num

/-- Little-endian assembly of four bytes, as done by the CRC readers,
equals the positional sum. -/
lemma le4_assembly {b0 b1 b2 b3 : Nat} (h0 : b0 < 256) (h1 : b1 < 256)
    (h2 : b2 < 256) :
    (b3 <<< 24) ||| (b2 <<< 16) ||| (b1 <<< 8) ||| b0 =
      b3 * 16777216 + b2 * 65536 + b1 * 256 + b0 := by
  rw [Nat.shiftLeft_eq, Nat.shiftLeft_eq, Nat.shiftLeft_eq]
  have hi1 : b3 * 2 ^ 24 ||| b2 * 2 ^ 16 = b3 * 2 ^ 24 + b2 * 2 ^ 16 :=
    lor_eq_add_of_lt (k := 24) (by omega) (by omega)
  have hi2 : b3 * 2 ^ 24 + b2 * 2 ^ 16 ||| b1 * 2 ^ 8 =
      b3 * 2 ^ 24 + b2 * 2 ^ 16 + b1 * 2 ^ 8 :=
    lor_eq_add_of_lt (k := 16) (by omega) (by omega)
  rw [hi1, hi2, lor_eq_add_of_lt (k := 8) (by omega) (by omega)]
  norm_num

/-- C2: for every register index in [0,63] and every 24-bit value, the
opcode byte of `readRegister` is `reg | 0x40` (= 0x40 + reg) and that of
`writeRegister` is `reg | 0xC0` (= 0xC0 + reg), and `writeRegister`
places the value into bytes 1-3 most-significant byte first. -/
theorem register_opcode_and_endianness (reg v : Nat) (hreg : reg < 64)
    (hv : v < 2 ^ 24) :
    (readRegisterTx reg).getD 0 0 = reg ||| 0x40 ∧
    (readRegisterTx reg).getD 0 0 = 64 + reg ∧
    (writeRegisterTx reg v).getD 0 0 = reg ||| 0xc0 ∧
    (writeRegisterTx reg v).getD 0 0 = 192 + reg ∧
    writeRegisterTx reg v =
      [192 + reg, v / 65536, v / 256 % 256, v % 256] := by
  have h64 : reg ||| 64 = 64 + reg := by
    rw [Nat.lor_comm]
    exact lor_eq_add_of_lt (k := 6) (by omega) (by omega)
  have h192 : reg ||| 192 = 192 + reg := by
    rw [Nat.lor_comm]
    exact lor_eq_add_of_lt (k := 6) (by omega) (by omega)
  refine ⟨rfl, ?_, rfl, ?_, ?_⟩
  · simpa [readRegisterTx] using h64
  · simpa [writeRegisterTx] using h192
  · simp only [writeRegisterTx, Nat.shiftRight_eq_div_pow, and_255_eq_mod,
      Nat.shiftRight_zero]
    norm_num [h192]
    omega

/-- Witness for C2 at reg = 5, v = 0x123456. -/
theorem register_opcode_and_endianness_witness :
    (5 : Nat) < 64 ∧ (0x123456 : Nat) < 2 ^ 24 ∧
    ((readRegisterTx 5).getD 0 0 = 5 ||| 0x40 ∧
     (readRegisterTx 5).getD 0 0 = 64 + 5 ∧
     (writeRegisterTx 5 0x123456).getD 0 0 = 5 ||| 0xc0 ∧
     (writeRegisterTx 5 0x123456).getD 0 0 = 192 + 5 ∧
     writeRegisterTx 5 0x123456 =
       [192 + 5, 0x123456 / 65536, 0x123456 / 256 % 256, 0x123456 % 256]) :=
  ⟨by decide, by decide,
    register_opcode_and_endianness 5 0x123456 (by decide) (by decide)⟩

/-- C3: the opcode byte of the 3-byte frames is `0x10 | ((A>>8)&0x0F)` for
a main-memory read, `0x90 | ((A>>8)&0x0F)` for a main-memory write and
`0x20 | ((A>>8)&0x1F)` for an OTP read (given arithmetically as
16 + high nibble etc.), with byte 1 equal to `A & 0xFF` in every case. -/
theorem memory_opcode_encoding (A d : Nat) (hA : A < 2 ^ 16) :
    (mainReadFrame A).getD 0 0 = 0x10 ||| ((A >>> 8) &&& 0x0f) ∧
    (mainReadFrame A).getD 0 0 = 16 + A / 256 % 16 ∧
    (mainWriteFrame A d).getD 0 0 = 0x90 ||| ((A >>> 8) &&& 0x0f) ∧
    (mainWriteFrame A d).getD 0 0 = 144 + A / 256 % 16 ∧
    (otpReadFrame A).getD 0 0 = 0x20 ||| ((A >>> 8) &&& 0x1f) ∧
    (otpReadFrame A).getD 0 0 = 32 + A / 256 % 32 ∧
    (mainReadFrame A).getD 1 0 = A % 256 ∧
    (mainWriteFrame A d).getD 1 0 = A % 256 ∧
    (otpReadFrame A).getD 1 0 = A % 256 ∧
    (mainReadFrame A).length = 3 ∧ (mainWriteFrame A d).length = 3 ∧
    (otpReadFrame A).length = 3 := by
  refine ⟨rfl, ?_, rfl, ?_, rfl, ?_, ?_, ?_, ?_, rfl, rfl, rfl⟩
  · simp only [mainReadFrame, Nat.shiftRight_eq_div_pow, and_15_eq_mod]
    norm_num
    exact lor_eq_add_of_lt (k := 4) (by omega) (by norm_num)
  · simp only [mainWriteFrame, Nat.shiftRight_eq_div_pow, and_15_eq_mod]
    norm_num
    exact lor_eq_add_of_lt (k := 4) (by omega) (by norm_num)
  · simp only [otpReadFrame, Nat.shiftRight_eq_div_pow, and_31_eq_mod]
    norm_num
    exact lor_eq_add_of_lt (k := 5) (by omega) (by norm_num)
  · simp [mainReadFrame, and_255_eq_mod]
  · simp [mainWriteFrame, and_255_eq_mod]
  · simp [otpReadFrame, and_255_eq_mod]

/-- Witness for C3 at the boundary address A = 0x1FFF. -/
theorem memory_opcode_encoding_witness :
    (0x1fff : Nat) < 2 ^ 16 ∧
    ((mainReadFrame 0x1fff).getD 0 0 = 0x10 ||| ((0x1fff >>> 8) &&& 0x0f) ∧
     (mainReadFrame 0x1fff).getD 0 0 = 16 + 0x1fff / 256 % 16 ∧
     (mainWriteFrame 0x1fff 7).getD 0 0 = 0x90 ||| ((0x1fff >>> 8) &&& 0x0f) ∧
     (mainWriteFrame 0x1fff 7).getD 0 0 = 144 + 0x1fff / 256 % 16 ∧
     (otpReadFrame 0x1fff).getD 0 0 = 0x20 ||| ((0x1fff >>> 8) &&& 0x1f) ∧
     (otpReadFrame 0x1fff).getD 0 0 = 32 + 0x1fff / 256 % 32 ∧
     (mainReadFrame 0x1fff).getD 1 0 = 0x1fff % 256 ∧
     (mainWriteFrame 0x1fff 7).getD 1 0 = 0x1fff % 256 ∧
     (otpReadFrame 0x1fff).getD 1 0 = 0x1fff % 256 ∧
     (mainReadFrame 0x1fff).length = 3 ∧
     (mainWriteFrame 0x1fff 7).length = 3 ∧
     (otpReadFrame 0x1fff).length = 3) :=
  ⟨by decide, memory_opcode_encoding 0x1fff 7 (by decide)⟩

/-- C4: a write followed by a read against a mock that echoes the written
data-phase bytes back on the data-phase slots returns the value written,
for every register index and 24-bit value. -/
theorem write_read_roundtrip (reg v : Nat) (hreg : reg < 64)
    (hv : v < 2 ^ 24) :
    readRegister (fun _ => writeRegisterTx reg v) reg = v := by
  simp only [readRegister, writeRegisterTx, List.getD_cons_succ,
    List.getD_cons_zero, Nat.shiftRight_eq_div_pow, and_255_eq_mod,
    Nat.shiftRight_zero]
  rw [be3_assembly (by omega) (by omega)]
  norm_num
  omega

/-- Witness for C4 at reg = 3, v = 0xABCDEF. -/
theorem write_read_roundtrip_witness :
    (3 : Nat) < 64 ∧ (0xabcdef : Nat) < 2 ^ 24 ∧
    readRegister (fun _ => writeRegisterTx 3 0xabcdef) 3 = 0xabcdef :=
  ⟨by decide, by decide, write_read_roundtrip 3 0xabcdef (by decide) (by decide)⟩

/-- Bounded elements give a bounded `getD` at default 0. -/
lemma getD_lt_256 {l : List Nat} (h : ∀ x ∈ l, x < 256) (i : Nat) :
    l.getD i 0 < 256 := by
  induction l generalizing i with
  | nil => simp [List.getD]
  | cons a t ih =>
    cases i with
    | zero => exact h a (by simp)
    | succ j =>
      simp only [List.getD_cons_succ]
      exact ih (fun x hx => h x (by simp [hx])) j

/-- C8: for every register index and device response of bytes, the value
`readRegister` returns is below 2^24 and equals the big-endian positional
assembly of bytes 1-3 of the received buffer. -/
theorem readRegister_assembly (dev : Dev) (reg : Nat)
    (hbytes : ∀ b ∈ dev (readRegisterTx reg), b < 256) :
    readRegister dev reg < 2 ^ 24 ∧
    readRegister dev reg =
      ((dev (readRegisterTx reg)).getD 1 0) * 65536 +
        ((dev (readRegisterTx reg)).getD 2 0) * 256 +
        ((dev (readRegisterTx reg)).getD 3 0) := by
  have h1 := getD_lt_256 hbytes 1
  have h2 := getD_lt_256 hbytes 2
  have h3 := getD_lt_256 hbytes 3
  have hasm : readRegister dev reg =
      ((dev (readRegisterTx reg)).getD 1 0) * 65536 +
        ((dev (readRegisterTx reg)).getD 2 0) * 256 +
        ((dev (readRegisterTx reg)).getD 3 0) := by
    simp only [readRegister]
    exact be3_assembly h2 h3
  refine ⟨?_, hasm⟩
  rw [hasm]
  omega

/-- Witness for C8 with a device answering [0xAA, 0x12, 0x34, 0x56]. -/
theorem readRegister_assembly_witness :
    (∀ b ∈ (fun _ => [0xaa, 0x12, 0x34, 0x56] : Dev) (readRegisterTx 9),
      b < 256) ∧
    (readRegister (fun _ => [0xaa, 0x12, 0x34, 0x56]) 9 < 2 ^ 24 ∧
     readRegister (fun _ => [0xaa, 0x12, 0x34, 0x56]) 9 =
       (([0xaa, 0x12, 0x34, 0x56] : List Nat).getD 1 0) * 65536 +
         (([0xaa, 0x12, 0x34, 0x56] : List Nat).getD 2 0) * 256 +
         (([0xaa, 0x12, 0x34, 0x56] : List Nat).getD 3 0)) :=
  ⟨by decide, readRegister_assembly (fun _ => [0xaa, 0x12, 0x34, 0x56]) 9
    (by decide)⟩

/-- Chip-select-framed blocks: one `cs LOW` / 3-byte transfer / `cs HIGH`
triple per frame, concatenated. -/
def csBlocks (frames : List (List Nat)) : List Ev :=
  frames.flatMap fun f => [Ev.cs false, Ev.xfer f, Ev.cs true]

/-- Recognizer for transfer events. -/
def isXfer : Ev → Bool
  | Ev.xfer _ => true
  | _ => false

lemma csBlocks_nil : csBlocks [] = [] := rfl

lemma csBlocks_cons (f : List Nat) (fs : List (List Nat)) :
    csBlocks (f :: fs) =
      Ev.cs false :: Ev.xfer f :: Ev.cs true :: csBlocks fs := by
  simp [csBlocks]

lemma csBlocks_count_beginT (fs : List (List Nat)) :
    (csBlocks fs).count Ev.beginT = 0 := by
  induction fs with
  | nil => rfl
  | cons f t ih => rw [csBlocks_cons]; simp [List.count_cons, ih]

lemma csBlocks_count_endT (fs : List (List Nat)) :
    (csBlocks fs).count Ev.endT = 0 := by
  induction fs with
  | nil => rfl
  | cons f t ih => rw [csBlocks_cons]; simp [List.count_cons, ih]

lemma csBlocks_countP_xfer (fs : List (List Nat)) :
    (csBlocks fs).countP isXfer = fs.length := by
  induction fs with
  | nil => rfl
  | cons f t ih => rw [csBlocks_cons]; simp [List.countP_cons, ih, isXfer]

lemma csBlocks_count_csLow (fs : List (List Nat)) :
    (csBlocks fs).count (Ev.cs false) = fs.length := by
  induction fs with
  | nil => rfl
  | cons f t ih => rw [csBlocks_cons]; simp [List.count_cons, ih]

lemma csBlocks_count_csHigh (fs : List (List Nat)) :
    (csBlocks fs).count (Ev.cs true) = fs.length := by
  induction fs with
  | nil => rfl
  | cons f t ih => rw [csBlocks_cons]; simp [List.count_cons, ih]

/-- Trace of the `readMemory` loop: one chip-select-framed 3-byte transfer
per consecutive address. -/
lemma readMemoryIter_fst (dev : Dev) (A : Nat) :
    ∀ (n i : Nat) (data : List Nat),
      (readMemoryIter dev A data i n).1 =
        csBlocks ((List.range n).map fun j => mainReadFrame (A + (i + j))) := by
  intro n
  induction n with
  | zero => intro i data; simp [readMemoryIter, csBlocks]
  | succ m ih =>
    intro i data
    have hmap : (List.range m).map
          ((fun j => mainReadFrame (A + (i + j))) ∘ Nat.succ) =
        (List.range m).map fun j => mainReadFrame (A + (i + 1 + j)) := by
      apply List.map_congr_left
      intro a _
      simp only [Function.comp]
      congr 1
      omega
    simp only [readMemoryIter]
    rw [ih, List.range_succ_eq_map, List.map_cons, List.map_map,
      csBlocks_cons, hmap]
    simp

/-- Trace of the `readOTP` loop. -/
lemma readOTPIter_fst (dev : Dev) (A : Nat) :
    ∀ (n i : Nat) (data : List Nat),
      (readOTPIter dev A data i n).1 =
        csBlocks ((List.range n).map fun j => otpReadFrame (A + (i + j))) := by
  intro n
  induction n with
  | zero => intro i data; simp [readOTPIter, csBlocks]
  | succ m ih =>
    intro i data
    have hmap : (List.range m).map
          ((fun j => otpReadFrame (A + (i + j))) ∘ Nat.succ) =
        (List.range m).map fun j => otpReadFrame (A + (i + 1 + j)) := by
      apply List.map_congr_left
      intro a _
      simp only [Function.comp]
      congr 1
      omega
    simp only [readOTPIter]
    rw [ih, List.range_succ_eq_map, List.map_cons, List.map_map,
      csBlocks_cons, hmap]
    simp

/-- Trace of the `writeMemory` loop. -/
lemma writeMemoryIter_eq (A : Nat) (data : List Nat) :
    ∀ (n i : Nat),
      writeMemoryIter A data i n =
        csBlocks ((List.range n).map fun j =>
          mainWriteFrame (A + (i + j)) (data.getD (i + j) 0)) := by
  intro n
  induction n with
  | zero => intro i; simp [writeMemoryIter, csBlocks]
  | succ m ih =>
    intro i
    have hmap : (List.range m).map
          ((fun j => mainWriteFrame (A + (i + j)) (data.getD (i + j) 0)) ∘
            Nat.succ) =
        (List.range m).map fun j =>
          mainWriteFrame (A + (i + 1 + j)) (data.getD (i + 1 + j) 0) := by
      apply List.map_congr_left
      intro a _
      simp only [Function.comp]
      congr 1
      · omega
      · congr 1
        omega
    simp only [writeMemoryIter]
    rw [ih, List.range_succ_eq_map, List.map_cons, List.map_map,
      csBlocks_cons, hmap]
    simp

/-- C9: for length N >= 1 each of `readMemory`, `readOTP`, `writeMemory`
issues exactly N independent 3-byte transfers for the consecutive
addresses A, A+1, ..., A+N-1, each bracketed by its own chip-select
LOW/HIGH pulse, with the bus-acquisition scope entered exactly once
before the first transfer and exited exactly once after the last. -/
theorem span_ops_trace (dev : Dev) (A : Nat) (data : List Nat) (len : Int)
    (h : 1 ≤ len) :
    ((readMemory dev A data len).1 =
      Ev.beginT :: csBlocks ((List.range len.toNat).map fun j =>
        mainReadFrame (A + j)) ++ [Ev.endT] ∧
     (readOTP dev A data len).1 =
      Ev.beginT :: csBlocks ((List.range len.toNat).map fun j =>
        otpReadFrame (A + j)) ++ [Ev.endT] ∧
     writeMemory A data len =
      Ev.beginT :: csBlocks ((List.range len.toNat).map fun j =>
        mainWriteFrame (A + j) (data.getD j 0)) ++ [Ev.endT]) ∧
    ((readMemory dev A data len).1.count Ev.beginT = 1 ∧
     (readMemory dev A data len).1.count Ev.endT = 1 ∧
     (readMemory dev A data len).1.countP isXfer = len.toNat ∧
     (readMemory dev A data len).1.count (Ev.cs false) = len.toNat ∧
     (readMemory dev A data len).1.count (Ev.cs true) = len.toNat) ∧
    ((readOTP dev A data len).1.count Ev.beginT = 1 ∧
     (readOTP dev A data len).1.count Ev.endT = 1 ∧
     (readOTP dev A data len).1.countP isXfer = len.toNat ∧
     (readOTP dev A data len).1.count (Ev.cs false) = len.toNat ∧
     (readOTP dev A data len).1.count (Ev.cs true) = len.toNat) ∧
    ((writeMemory A data len).count Ev.beginT = 1 ∧
     (writeMemory A data len).count Ev.endT = 1 ∧
     (writeMemory A data len).countP isXfer = len.toNat ∧
     (writeMemory A data len).count (Ev.cs false) = len.toNat ∧
     (writeMemory A data len).count (Ev.cs true) = len.toNat) := by
  have hm : (readMemory dev A data len).1 =
      Ev.beginT :: csBlocks ((List.range len.toNat).map fun j =>
        mainReadFrame (A + j)) ++ [Ev.endT] := by
    simp only [readMemory, readMemoryIter_fst, Nat.zero_add]
  have ho : (readOTP dev A data len).1 =
      Ev.beginT :: csBlocks ((List.range len.toNat).map fun j =>
        otpReadFrame (A + j)) ++ [Ev.endT] := by
    simp only [readOTP, readOTPIter_fst, Nat.zero_add]
  have hw : writeMemory A data len =
      Ev.beginT :: csBlocks ((List.range len.toNat).map fun j =>
        mainWriteFrame (A + j) (data.getD j 0)) ++ [Ev.endT] := by
    simp only [writeMemory, writeMemoryIter_eq, Nat.zero_add]
  refine ⟨⟨hm, ho, hw⟩, ⟨?_, ?_, ?_, ?_, ?_⟩, ⟨?_, ?_, ?_, ?_, ?_⟩,
    ⟨?_, ?_, ?_, ?_, ?_⟩⟩ <;>
    simp [hm, ho, hw, List.count_cons, List.count_append, List.countP_cons,
      List.countP_append, csBlocks_count_beginT, csBlocks_count_endT,
      csBlocks_countP_xfer, csBlocks_count_csLow, csBlocks_count_csHigh,
      isXfer]

/-- Witness for C9: two-byte span at address 5 on a constant device. -/
theorem span_ops_trace_witness :
    (1 : Int) ≤ 2 ∧
    (((readMemory (fun _ => [0, 0, 0]) 5 [9, 9] 2).1 =
       Ev.beginT :: csBlocks ((List.range (2 : Int).toNat).map fun j =>
         mainReadFrame (5 + j)) ++ [Ev.endT] ∧
      (readOTP (fun _ => [0, 0, 0]) 5 [9, 9] 2).1 =
       Ev.beginT :: csBlocks ((List.range (2 : Int).toNat).map fun j =>
         otpReadFrame (5 + j)) ++ [Ev.endT] ∧
      writeMemory 5 [9, 9] 2 =
       Ev.beginT :: csBlocks ((List.range (2 : Int).toNat).map fun j =>
         mainWriteFrame (5 + j) (([9, 9] : List Nat).getD j 0)) ++
         [Ev.endT]) ∧
     ((readMemory (fun _ => [0, 0, 0]) 5 [9, 9] 2).1.count Ev.beginT = 1 ∧
      (readMemory (fun _ => [0, 0, 0]) 5 [9, 9] 2).1.count Ev.endT = 1 ∧
      (readMemory (fun _ => [0, 0, 0]) 5 [9, 9] 2).1.countP isXfer =
        (2 : Int).toNat ∧
      (readMemory (fun _ => [0, 0, 0]) 5 [9, 9] 2).1.count (Ev.cs false) =
        (2 : Int).toNat ∧
      (readMemory (fun _ => [0, 0, 0]) 5 [9, 9] 2).1.count (Ev.cs true) =
        (2 : Int).toNat) ∧
     ((readOTP (fun _ => [0, 0, 0]) 5 [9, 9] 2).1.count Ev.beginT = 1 ∧
      (readOTP (fun _ => [0, 0, 0]) 5 [9, 9] 2).1.count Ev.endT = 1 ∧
      (readOTP (fun _ => [0, 0, 0]) 5 [9, 9] 2).1.countP isXfer =
        (2 : Int).toNat ∧
      (readOTP (fun _ => [0, 0, 0]) 5 [9, 9] 2).1.count (Ev.cs false) =
        (2 : Int).toNat ∧
      (readOTP (fun _ => [0, 0, 0]) 5 [9, 9] 2).1.count (Ev.cs true) =
        (2 : Int).toNat) ∧
     ((writeMemory 5 [9, 9] 2).count Ev.beginT = 1 ∧
      (writeMemory 5 [9, 9] 2).count Ev.endT = 1 ∧
      (writeMemory 5 [9, 9] 2).countP isXfer = (2 : Int).toNat ∧
      (writeMemory 5 [9, 9] 2).count (Ev.cs false) = (2 : Int).toNat ∧
      (writeMemory 5 [9, 9] 2).count (Ev.cs true) = (2 : Int).toNat)) :=
  ⟨by decide, span_ops_trace (fun _ => [0, 0, 0]) 5 [9, 9] 2 (by decide)⟩

/-- C10: for length <= 0 the three span operations pulse no chip select
and perform no transfer, leave the caller's buffer unchanged, and still
enter and exit the bus-acquisition scope exactly once. -/
theorem span_ops_empty_trace (dev : Dev) (A : Nat) (data : List Nat)
    (len : Int) (h : len ≤ 0) :
    (readMemory dev A data len).1 = [Ev.beginT, Ev.endT] ∧
    (readMemory dev A data len).2 = data ∧
    (readOTP dev A data len).1 = [Ev.beginT, Ev.endT] ∧
    (readOTP dev A data len).2 = data ∧
    writeMemory A data len = [Ev.beginT, Ev.endT] ∧
    (readMemory dev A data len).1.countP isXfer = 0 ∧
    (readOTP dev A data len).1.countP isXfer = 0 ∧
    (writeMemory A data len).countP isXfer = 0 ∧
    (readMemory dev A data len).1.count (Ev.cs false) = 0 ∧
    (readOTP dev A data len).1.count (Ev.cs false) = 0 ∧
    (writeMemory A data len).count (Ev.cs false) = 0 := by
  have h0 : len.toNat = 0 := Int.toNat_of_nonpos h
  refine ⟨?_, ?_, ?_, ?_, ?_, ?_, ?_, ?_, ?_, ?_, ?_⟩ <;>
    simp [readMemory, readOTP, writeMemory, h0, readMemoryIter,
      readOTPIter, writeMemoryIter, List.countP_cons, List.count_cons,
      isXfer]

/-- Witness for C10 at length -3. -/
theorem span_ops_empty_trace_witness :
    (-3 : Int) ≤ 0 ∧
    ((readMemory (fun _ => [1]) 2 [5, 6] (-3)).1 = [Ev.beginT, Ev.endT] ∧
     (readMemory (fun _ => [1]) 2 [5, 6] (-3)).2 = [5, 6] ∧
     (readOTP (fun _ => [1]) 2 [5, 6] (-3)).1 = [Ev.beginT, Ev.endT] ∧
     (readOTP (fun _ => [1]) 2 [5, 6] (-3)).2 = [5, 6] ∧
     writeMemory 2 [5, 6] (-3) = [Ev.beginT, Ev.endT] ∧
     (readMemory (fun _ => [1]) 2 [5, 6] (-3)).1.countP isXfer = 0 ∧
     (readOTP (fun _ => [1]) 2 [5, 6] (-3)).1.countP isXfer = 0 ∧
     (writeMemory 2 [5, 6] (-3)).countP isXfer = 0 ∧
     (readMemory (fun _ => [1]) 2 [5, 6] (-3)).1.count (Ev.cs false) = 0 ∧
     (readOTP (fun _ => [1]) 2 [5, 6] (-3)).1.count (Ev.cs false) = 0 ∧
     (writeMemory 2 [5, 6] (-3)).count (Ev.cs false) = 0) :=
  ⟨by decide, span_ops_empty_trace (fun _ => [1]) 2 [5, 6] (-3) (by decide)⟩

/-- Setting the element right after a prefix of known length. -/
lemma set_at_length (pre : List Nat) (x b : Nat) (suf : List Nat) :
    (pre ++ x :: suf).set pre.length b = pre ++ b :: suf := by
  induction pre with
  | nil => rfl
  | cons a t ih => simpa using ih

/-- Bytes placed into the caller's buffer by the `readMemory` loop: the
data-phase byte of each consecutive main-memory read frame. -/
def mainMemBytes (dev : Dev) (A len : Nat) : List Nat :=
  (List.range len).map fun j => mainMemByte dev (A + j)

/-- Bytes placed into the caller's buffer by the `readOTP` loop. -/
def otpBytes (dev : Dev) (A len : Nat) : List Nat :=
  (List.range len).map fun j => otpByte dev (A + j)

/-- Final buffer of the `readMemory` loop: the already-written prefix
`pre` is kept, the next `n` cells are overwritten with the received
data-phase bytes, and the tail beyond them is untouched. -/
lemma readMemoryIter_snd (dev : Dev) (A : Nat) :
    ∀ (n i : Nat) (pre suf : List Nat), pre.length = i → n ≤ suf.length →
      (readMemoryIter dev A (pre ++ suf) i n).2 =
        pre ++ ((List.range n).map fun j => mainMemByte dev (A + (i + j))) ++
          suf.drop n := by
  intro n
  induction n with
  | zero => intro i pre suf hp hn; simp [readMemoryIter]
  | succ m ih =>
    intro i pre suf hp hn
    subst hp
    cases suf with
    | nil => simp at hn
    | cons s0 srest =>
      have hmap : (List.range m).map
            ((fun j => mainMemByte dev (A + (pre.length + j))) ∘ Nat.succ) =
          (List.range m).map fun j =>
            mainMemByte dev (A + (pre.length + 1 + j)) := by
        apply List.map_congr_left
        intro a _
        simp only [Function.comp]
        congr 1
        omega
      simp only [readMemoryIter, set_at_length]
      have hrec := ih (pre.length + 1)
        (pre ++ [(dev (mainReadFrame (A + pre.length))).getD 2 0]) srest
        (by simp) (by simpa using hn)
      rw [show pre ++ (dev (mainReadFrame (A + pre.length))).getD 2 0 :: srest
          = (pre ++ [(dev (mainReadFrame (A + pre.length))).getD 2 0]) ++ srest
        by simp]
      rw [hrec, List.range_succ_eq_map, List.map_cons, List.map_map, hmap]
      simp [mainMemByte, List.append_assoc]

/-- Final buffer of the `readOTP` loop. -/
lemma readOTPIter_snd (dev : Dev) (A : Nat) :
    ∀ (n i : Nat) (pre suf : List Nat), pre.length = i → n ≤ suf.length →
      (readOTPIter dev A (pre ++ suf) i n).2 =
        pre ++ ((List.range n).map fun j => otpByte dev (A + (i + j))) ++
          suf.drop n := by
  intro n
  induction n with
  | zero => intro i pre suf hp hn; simp [readOTPIter]
  | succ m ih =>
    intro i pre suf hp hn
    subst hp
    cases suf with
    | nil => simp at hn
    | cons s0 srest =>
      have hmap : (List.range m).map
            ((fun j => otpByte dev (A + (pre.length + j))) ∘ Nat.succ) =
          (List.range m).map fun j =>
            otpByte dev (A + (pre.length + 1 + j)) := by
        apply List.map_congr_left
        intro a _
        simp only [Function.comp]
        congr 1
        omega
      simp only [readOTPIter, set_at_length]
      have hrec := ih (pre.length + 1)
        (pre ++ [(dev (otpReadFrame (A + pre.length))).getD 2 0]) srest
        (by simp) (by simpa using hn)
      rw [show pre ++ (dev (otpReadFrame (A + pre.length))).getD 2 0 :: srest
          = (pre ++ [(dev (otpReadFrame (A + pre.length))).getD 2 0]) ++ srest
        by simp]
      rw [hrec, List.range_succ_eq_map, List.map_cons, List.map_map, hmap]
      simp [otpByte, List.append_assoc]

/-- `readMemory` of `len` bytes into a buffer of sufficient length:
the first `len` cells hold the received bytes, the rest of the initial
buffer is untouched. -/
lemma readMemory_snd (dev : Dev) (A : Nat) (init : List Nat) (len : Nat)
    (h : len ≤ init.length) :
    (readMemory dev A init (Int.ofNat len)).2 =
      mainMemBytes dev A len ++ init.drop len := by
  have hrec := readMemoryIter_snd dev A len 0 [] init rfl h
  simp only [List.nil_append, Nat.zero_add] at hrec
  simp only [readMemory, mainMemBytes]
  exact hrec

/-- `readOTP` analogue of `readMemory_snd`. -/
lemma readOTP_snd (dev : Dev) (A : Nat) (init : List Nat) (len : Nat)
    (h : len ≤ init.length) :
    (readOTP dev A init (Int.ofNat len)).2 =
      otpBytes dev A len ++ init.drop len := by
  have hrec := readOTPIter_snd dev A len 0 [] init rfl h
  simp only [List.nil_append, Nat.zero_add] at hrec
  simp only [readOTP, otpBytes]
  exact hrec

/-- `getD` of an append, index inside the left part. -/
lemma getD_append_left {l₁ l₂ : List Nat} {i : Nat} (h : i < l₁.length)
    (d : Nat) : (l₁ ++ l₂).getD i d = l₁.getD i d := by
  simp [List.getD_eq_getElem?_getD, List.getElem?_append_left h]

/-- An in-range `getD` is an element of the list. -/
lemma getD_mem {l : List Nat} {i : Nat} (h : i < l.length) (d : Nat) :
    l.getD i d ∈ l := by
  rw [List.getD_eq_getElem?_getD, List.getElem?_eq_getElem h]
  exact List.getElem_mem h

/-- `String(s)` semantics on a buffer whose first zero byte sits at
position k inside the first list: the C string is the prefix [0, k). -/
lemma takeWhile_append_of_zero :
    ∀ (bytes : List Nat) (k : Nat) (rest : List Nat), k < bytes.length →
      bytes.getD k 1 = 0 → (∀ j, j < k → bytes.getD j 0 ≠ 0) →
      (bytes ++ rest).takeWhile (fun b => b != 0) = bytes.take k := by
  intro bytes
  induction bytes with
  | nil => intro k rest hk _ _; simp at hk
  | cons b bs ih =>
    intro k rest hk h0 hnz
    cases k with
    | zero =>
      simp only [List.getD_cons_zero] at h0
      subst h0
      simp
    | succ m =>
      have hb : b ≠ 0 := by simpa using hnz 0 (Nat.succ_pos m)
      rw [List.cons_append, List.takeWhile_cons_of_pos (by simpa using hb),
        List.take_succ_cons]
      exact congrArg (b :: ·) (ih m rest (by simpa using hk)
        (by simpa using h0)
        (fun j hj => by simpa using hnz (j + 1) (by omega)))

/-- C5: `readLabel` clamps the requested length to 32, reads that many
bytes via the main-memory read path, returns the empty string when no
zero byte occurs among them, and returns exactly the bytes before the
first zero byte otherwise — whatever the initial contents of the stack
buffer were. -/
theorem readLabel_spec (dev : Dev) (address length : Nat) (init : List Nat)
    (hinit : init.length = 32) :
    ((∀ b ∈ mainMemBytes dev address (min length 32), b ≠ 0) →
      readLabel dev address length init = []) ∧
    (∀ k, k < min length 32 →
      (mainMemBytes dev address (min length 32)).getD k 1 = 0 →
      (∀ j, j < k →
        (mainMemBytes dev address (min length 32)).getD j 0 ≠ 0) →
      readLabel dev address length init =
        (mainMemBytes dev address (min length 32)).take k) := by
  have hclamp : (if 32 < length then 32 else length) = min length 32 := by
    split <;> omega
  have hle : min length 32 ≤ init.length := by omega
  have hs := readMemory_snd dev address init (min length 32) hle
  have hbslen : (mainMemBytes dev address (min length 32)).length =
      min length 32 := by
    simp [mainMemBytes]
  constructor
  · intro hall
    simp only [readLabel, hclamp, hs]
    have hany : ((List.range (min length 32)).any fun i =>
        (mainMemBytes dev address (min length 32) ++
          init.drop (min length 32)).getD i 1 == 0) = false := by
      rw [List.any_eq_false]
      intro i hi
      rw [List.mem_range] at hi
      rw [getD_append_left (by omega) 1]
      have hmem := getD_mem (l := mainMemBytes dev address (min length 32))
        (i := i) (by omega) 1
      have := hall _ hmem
      simpa using this
    rw [hany]
    simp only [Bool.false_eq_true, if_false]
    have hlen : (mainMemBytes dev address (min length 32) ++
        init.drop (min length 32)).length = 32 := by
      rw [List.length_append, hbslen, List.length_drop, hinit]
      omega
    cases hcase : mainMemBytes dev address (min length 32) ++
        init.drop (min length 32) with
    | nil => rw [hcase] at hlen; simp at hlen
    | cons c t => simp
  · intro k hk h0 hnz
    simp only [readLabel, hclamp, hs]
    have hany : ((List.range (min length 32)).any fun i =>
        (mainMemBytes dev address (min length 32) ++
          init.drop (min length 32)).getD i 1 == 0) = true := by
      rw [List.any_eq_true]
      refine ⟨k, List.mem_range.mpr hk, ?_⟩
      rw [getD_append_left (by omega) 1, h0]
      rfl
    rw [hany]
    simp only [if_true]
    exact takeWhile_append_of_zero _ k _ (by omega) h0 hnz

/-- Witness for C5: a device with no zero byte in the read span gives the
empty string; a device whose read span is [7, 8, 0, 10, 11] gives [7, 8].
The initial buffer contents (here all 5s) do not matter. -/
theorem readLabel_spec_witness :
    (List.replicate 32 5).length = 32 ∧
    readLabel (fun buf => [0, 0, buf.getD 1 0 + 7]) 0 4
      (List.replicate 32 5) = [] ∧
    readLabel (fun buf => [0, 0,
      if buf.getD 1 0 == 2 then 0 else buf.getD 1 0 + 7]) 0 5
      (List.replicate 32 5) =
      (mainMemBytes (fun buf => [0, 0,
        if buf.getD 1 0 == 2 then 0 else buf.getD 1 0 + 7]) 0
        (min 5 32)).take 2 :=
  ⟨by decide,
   (readLabel_spec (fun buf => [0, 0, buf.getD 1 0 + 7]) 0 4
      (List.replicate 32 5) (by decide)).1 (by decide),
   (readLabel_spec (fun buf => [0, 0,
      if buf.getD 1 0 == 2 then 0 else buf.getD 1 0 + 7]) 0 5
      (List.replicate 32 5) (by decide)).2 2 (by decide) (by decide)
      (by decide)⟩

/-- C6: `readSramCrc` and `readOtpCrc` each read the fixed 4-byte span at
their fixed address (addresses `ADDR_SRAMCRC` / `ADDR_OTPCRC` from the
header, abstracted as parameters) via the main-memory resp. OTP read path
and assemble b3<<24 | b2<<16 | b1<<8 | b0 little-endian, i.e. the
positional sum with byte 0 least significant. -/
theorem crc_little_endian (dev : Dev) (addrS addrO : Nat)
    (hS : ∀ i, i < 4 → mainMemByte dev (addrS + i) < 256)
    (hO : ∀ i, i < 4 → otpByte dev (addrO + i) < 256) :
    readSramCrc dev addrS =
      mainMemByte dev (addrS + 3) * 16777216 +
        mainMemByte dev (addrS + 2) * 65536 +
        mainMemByte dev (addrS + 1) * 256 + mainMemByte dev addrS ∧
    readOtpCrc dev addrO =
      otpByte dev (addrO + 3) * 16777216 + otpByte dev (addrO + 2) * 65536 +
        otpByte dev (addrO + 1) * 256 + otpByte dev addrO := by
  have hS0 := hS 0 (by omega)
  have hS1 := hS 1 (by omega)
  have hS2 := hS 2 (by omega)
  have hO0 := hO 0 (by omega)
  have hO1 := hO 1 (by omega)
  have hO2 := hO 2 (by omega)
  have hr4 : (List.range 4) = [0, 1, 2, 3] := rfl
  constructor
  · have hbuf : (readMemory dev addrS [0, 0, 0, 0] 4).2 =
        [mainMemByte dev (addrS + 0), mainMemByte dev (addrS + 1),
         mainMemByte dev (addrS + 2), mainMemByte dev (addrS + 3)] := by
      rw [show (4 : Int) = Int.ofNat 4 from rfl,
        readMemory_snd dev addrS [0, 0, 0, 0] 4 (by simp)]
      simp [mainMemBytes, hr4]
    simp only [readSramCrc, hbuf, List.getD_cons_zero, List.getD_cons_succ]
    rw [le4_assembly (by simpa using hS0) (by simpa using hS1)
      (by simpa using hS2)]
    simp
  · have hbuf : (readOTP dev addrO [0, 0, 0, 0] 4).2 =
        [otpByte dev (addrO + 0), otpByte dev (addrO + 1),
         otpByte dev (addrO + 2), otpByte dev (addrO + 3)] := by
      rw [show (4 : Int) = Int.ofNat 4 from rfl,
        readOTP_snd dev addrO [0, 0, 0, 0] 4 (by simp)]
      simp [otpBytes, hr4]
    simp only [readOtpCrc, hbuf, List.getD_cons_zero, List.getD_cons_succ]
    rw [le4_assembly (by simpa using hO0) (by simpa using hO1)
      (by simpa using hO2)]
    simp

/-- Witness for C6: a device that answers the address's low byte on the
data phase; the spans start at 3 (main memory) and 5 (OTP). -/
theorem crc_little_endian_witness :
    (∀ i, i < 4 →
      mainMemByte (fun buf => [0, 0, buf.getD 1 0]) (3 + i) < 256) ∧
    (∀ i, i < 4 →
      otpByte (fun buf => [0, 0, buf.getD 1 0]) (5 + i) < 256) ∧
    (readSramCrc (fun buf => [0, 0, buf.getD 1 0]) 3 =
      mainMemByte (fun buf => [0, 0, buf.getD 1 0]) (3 + 3) * 16777216 +
        mainMemByte (fun buf => [0, 0, buf.getD 1 0]) (3 + 2) * 65536 +
        mainMemByte (fun buf => [0, 0, buf.getD 1 0]) (3 + 1) * 256 +
        mainMemByte (fun buf => [0, 0, buf.getD 1 0]) 3 ∧
     readOtpCrc (fun buf => [0, 0, buf.getD 1 0]) 5 =
      otpByte (fun buf => [0, 0, buf.getD 1 0]) (5 + 3) * 16777216 +
        otpByte (fun buf => [0, 0, buf.getD 1 0]) (5 + 2) * 65536 +
        otpByte (fun buf => [0, 0, buf.getD 1 0]) (5 + 1) * 256 +
        otpByte (fun buf => [0, 0, buf.getD 1 0]) 5) :=
  ⟨by decide, by decide,
   crc_little_endian (fun buf => [0, 0, buf.getD 1 0]) 3 5
     (by decide) (by decide)⟩
